import Mathlib

/-!
# A verification development for the mltrace lineage store

This file gives a shallow embedding of `mltrace/db/store.py` (the `Store`
class) and settles the specification claims against it.

Modelling conventions:
* The SQLAlchemy session / database is modelled as a `Store` structure holding
  the rows of each table as a list in insertion order.  A query without an
  `order_by` clause is modelled as returning rows in insertion order, and
  `.first()` as `List.head?`.
* Methods that write through the session return a new `Store`; methods that
  only read return plain values.  `commit_component_run`, which can raise,
  returns `Except String Store` — the error branch carries the raised message
  and threads no new state, mirroring that the python `raise` happens before
  any `session.add`.
* ComponentRun identity: the database assigns integer ids on insert; the model
  assigns `next_run_id` on commit, starting at 1 (as a serial column would).
  Dependency edges are stored as run ids, matching the relational schema
  (dependency edges keyed by run id pairs).
* Timestamps are modelled as `Option Nat` (unset / a logical clock value).
* The entity classes (`Component`, `ComponentRun`, `IOPointer`, `Tag`,
  `PointerTypeEnum`) and `mltrace.db.utils` live in repository files that are
  not under `src/`; their fields and the few methods the store calls on them
  (`check_completeness`, `set_upstream`, wall-clock timestamp setters) are
  modelled from the spec, and are marked as such below.
-/

/-- Modelled from the spec: `PointerTypeEnum` (entity model, not under src/).
The spec requires at least file-backed types, a database-table type, and a
sequence-generated "endpoint" type; only `endpoint` matters to any claim. -/
inductive PointerTypeEnum where
  | file
  | dataTable
  | endpoint
deriving DecidableEq, Repr, BEq

/-- Modelled from the spec: the `Tag` entity (not under src/): "a unique label
(string key)". -/
structure Tag where
  name : String
deriving DecidableEq, Repr, BEq

/-- Modelled from the spec: the `IOPointer` entity (not under src/): "an
addressable artifact, identified by a unique name (string) and a
`PointerTypeEnum`". -/
structure IOPointer where
  name : String
  pointer_type : PointerTypeEnum
deriving DecidableEq, Repr, BEq

/-- Modelled from the spec: the `Component` entity (not under src/): unique
name, description, owner, set of Tags. -/
structure Component where
  name : String
  description : String
  owner : String
  tags : List Tag
deriving DecidableEq, Repr, BEq

/-- Modelled from the spec: the `ComponentRun` entity (not under src/):
numeric identity (assigned by the store on commit; `0` while unpersisted),
reference to Component by name, start/end timestamps, input and output
IOPointers, and the derived dependency edges, stored as the ids of the runs
depended on (the relational schema keys dependency edges by run id pairs). -/
structure ComponentRun where
  id : Nat
  component_name : String
  start_timestamp : Option Nat
  end_timestamp : Option Nat
  inputs : List IOPointer
  outputs : List IOPointer
  dependencies : List Nat
deriving DecidableEq, Repr, BEq

deriving instance DecidableEq for Except

/-- The session / database state: one list of rows per table, in insertion
order, plus the next serial id for `component_runs`. -/
structure Store where
  components : List Component
  tags : List Tag
  io_pointers : List IOPointer
  component_runs : List ComponentRun
  next_run_id : Nat
deriving DecidableEq, Repr

/-- The empty store (fresh database; serial ids start at 1). -/
def Store.empty : Store := ⟨[], [], [], [], 1⟩

/-- Modelled from the spec: `_map_extension_to_enum` lives in
`mltrace.db.utils` (not under src/) and is explicitly out of scope ("the
heuristic that infers an artifact's type from its name's file extension").
No claim depends on its values, so it is modelled as a constant choice. -/
def _map_extension_to_enum (_name : String) : PointerTypeEnum :=
  PointerTypeEnum.file

/-- `Store._get_component`: `session.query(Component).filter(name == name).first()`. -/
def _get_component (s : Store) (name : String) : Option Component :=
  (s.components.filter (fun c => c.name == name)).head?

/-- `Store.create_component`: if a component with the name exists, log and
return without modification.  Otherwise build `Tag(t)` objects directly from
the given tag names (NOT through `get_tag`), build the component, and
`session.add` + `commit` it; adding the component cascades its (new) tag
objects into the tag table. -/
def create_component (s : Store) (name description owner : String)
    (tags : List String) : Store :=
  match _get_component s name with
  | some _ => s
  | none =>
      let tagObjs := tags.map Tag.mk
      let component : Component := ⟨name, description, owner, tagObjs⟩
      { s with components := s.components ++ [component],
               tags := s.tags ++ tagObjs }

/-- `Store.get_tag`: query tags by name; if none exists, create, add and
commit a new one and return it; otherwise return `res[0]`. -/
def get_tag (s : Store) (name : String) : Tag × Store :=
  match s.tags.filter (fun t => t.name == name) with
  | [] =>
      let tag : Tag := ⟨name⟩
      (tag, { s with tags := s.tags ++ [tag] })
  | t :: _ => (t, s)

/-- `Store.get_io_pointer`: query io_pointers by name; if none exists, infer
the type when the argument is `None`, create, add and commit a new pointer;
otherwise return `res[0]`. -/
def get_io_pointer (s : Store) (name : String)
    (pointer_type : Option PointerTypeEnum) : IOPointer × Store :=
  match s.io_pointers.filter (fun p => p.name == name) with
  | [] =>
      let pt := match pointer_type with
        | none => _map_extension_to_enum name
        | some pt => pt
      let iop : IOPointer := ⟨name, pt⟩
      (iop, { s with io_pointers := s.io_pointers ++ [iop] })
  | p :: _ => (p, s)

/-- `Store.initialize_empty_component_run`: constructs an unpersisted
ComponentRun shell referencing the named component; no side effects. -/
def initialize_empty_component_run (component_name : String) : ComponentRun :=
  ⟨0, component_name, none, none, [], [], []⟩

/-- The endpoint-typed pointers, as filtered by `create_output_ids`. -/
def endpointPointers (s : Store) : List IOPointer :=
  s.io_pointers.filter (fun p => p.pointer_type == PointerTypeEnum.endpoint)

/-- Decimal digits accumulated left to right; `none` on a non-digit. -/
def digitsToNat (cs : List Char) (acc : Nat) : Option Nat :=
  match cs with
  | [] => some acc
  | c :: rest =>
      if c.isDigit then digitsToNat rest (acc * 10 + (c.toNat - 48))
      else none

/-- Python `int(string)` on a decimal numeral: the parsed value, or `none`
where python would raise `ValueError`. -/
def pyInt? (s : String) : Option Nat :=
  match s.data with
  | [] => none
  | cs => digitsToNat cs 0

/-- Python `int(name)`; `0` as a junk value outside the precondition that the
name is a decimal numeral (python would raise there). -/
def intName (p : IOPointer) : Nat := (pyInt? p.name).getD 0

/-- Python `max(res, key=lambda x: int(x.name))`: the first element of
maximal key (later elements replace only on strictly greater key). -/
def maxIntName (p : IOPointer) (ps : List IOPointer) : IOPointer :=
  ps.foldl (fun best x => if intName best < intName x then x else best) p

/-- The `start_index` of `create_output_ids`:
`0 if len(res) == 0 else int(max(res, key=lambda x: int(x.name)).name) + 1`. -/
def startIndex (s : Store) : Nat :=
  match endpointPointers s with
  | [] => 0
  | p :: ps => intName (maxIntName p ps) + 1

/-- `Store.create_output_ids`: queries endpoint-typed pointers, computes the
start index and returns the f-strings of `range(start, start + num)`.  The
body performs no `session.add` or `commit`, so the store component of the
result is the input store unchanged. -/
def create_output_ids (s : Store) (num_outputs : Nat) : List String × Store :=
  ((List.range' (startIndex s) num_outputs).map (fun i => toString i), s)

/-- Modelled from the spec: `ComponentRun.check_completeness` is an entity
method (not under src/).  Per the spec a run is committable only when start
timestamp, end timestamp, and at least one output are set, and the failure
message "carries which field(s) are missing".  The missing-field names: -/
def missing_fields (cr : ComponentRun) : List String :=
  (if cr.start_timestamp.isNone then ["start timestamp"] else []) ++
  (if cr.end_timestamp.isNone then ["end timestamp"] else []) ++
  (if cr.outputs.isEmpty then ["outputs"] else [])

/-- Modelled from the spec: `check_completeness` returns a status record with
a success flag and a message naming the missing fields. -/
def check_completeness (cr : ComponentRun) : Bool × String :=
  ((missing_fields cr).isEmpty, String.intercalate ", " (missing_fields cr))

/-- `Store.commit_component_run`: raise the completeness message when the
check fails (before any `session.add`); otherwise add the run — the database
assigns the next serial id — and commit. -/
def commit_component_run (s : Store) (cr : ComponentRun) :
    Except String Store :=
  let status := check_completeness cr
  if status.1 then
    Except.ok { s with
      component_runs := s.component_runs ++ [{ cr with id := s.next_run_id }],
      next_run_id := s.next_run_id + 1 }
  else
    Except.error status.2

/-- Modelled from the spec: `ComponentRun.set_upstream` is an entity method
(not under src/).  Per the spec step 5, it sets `run.dependencies` to the
given runs (a set — deduplicated), recorded as their ids. -/
def set_upstream (cr : ComponentRun) (runs : List ComponentRun) : ComponentRun :=
  { cr with dependencies := (runs.map (fun r => r.id)).dedup }

/-- The joined rows of the dependency query: each committed run paired with
each of its outputs (the `outerjoin` is an inner join after the
`IOPointer.name.in_(input_ids)` filter, since the NULL rows of runs without
outputs never pass an IN filter), restricted to outputs named by the inputs. -/
def depQueryRows (s : Store) (input_ids : List String) :
    List (ComponentRun × IOPointer) :=
  (s.component_runs.flatMap (fun r => r.outputs.map (fun o => (r, o)))).filter
    (fun ro => input_ids.contains ro.2.name)

/-- The window column `func.max(ComponentRun.start_timestamp)
.over(partition_by=ComponentRun.component_name)` evaluated on the filtered
result set: the max start timestamp among rows of the same component name. -/
def partitionMaxTs (rows : List (ComponentRun × IOPointer))
    (component_name : String) : Option Nat :=
  ((rows.filter (fun ro => ro.1.component_name == component_name)).map
    (fun ro => ro.1.start_timestamp.getD 0)).max?

/-- `Store.set_dependencies_from_inputs`: collect the input names, run the
join, pair each matched run with the window max — and then keep only `m[0]`
of every row, discarding the window column — and, when matches exist, set the
run upstream of ALL of them.  (The per-partition maximum is computed by the
query but never used to filter; this is the divergence claims C1/C2 hinge
on.) -/
def set_dependencies_from_inputs (s : Store) (component_run : ComponentRun) :
    ComponentRun :=
  let input_ids := component_run.inputs.map (fun inp => inp.name)
  let rows := depQueryRows s input_ids
  let withWindow := rows.map (fun ro => (ro.1, partitionMaxTs rows ro.1.component_name))
  let matchRuns := withWindow.map (fun m => m.1)
  if matchRuns.length == 0 then component_run
  else set_upstream component_run matchRuns

/-- Dereferencing a dependency edge: the object graph of the python runs is
modelled through run ids, so following a reference looks the run up in the
committed table.  An id with no row has no dependencies. -/
def storeDeps (s : Store) : Nat → List Nat := fun i =>
  match s.component_runs.find? (fun r => r.id == i) with
  | none => []
  | some r => r.dependencies

/-- `Store._traverse`, embedded with explicit fuel since the python recursion
is unbounded: append `(depth, node)`, then recurse on each dependency at
`depth + 1`, concatenating into `node_list` in order.  `none` means the
recursion depth exceeded the fuel; the python function diverges exactly when
the result is `none` for every fuel. -/
def traverseFuel (deps : Nat → List Nat) : Nat → Nat → Nat → Option (List (Nat × Nat))
  | 0, _, _ => none
  | fuel + 1, node, depth =>
      (deps node).foldl
        (fun acc m =>
          acc.bind (fun l1 =>
            (traverseFuel deps fuel m (depth + 1)).map (fun l2 => l1 ++ l2)))
        (some [(depth, node)])

/-- The root query of `Store.trace`:
`session.query(ComponentRun).options(joinedload(outputs))
.filter(IOPointer.name == output_id).first()`.
The criterion references the `io_pointers` table, which is never joined to
`ComponentRun` (the eager-load alias of `joinedload` is not addressable by
filter criteria), so the FROM list is the cross product of `component_runs`
with `io_pointers`; after the name filter the rows are every committed run
paired with every pointer of that name, and `.first()` is the head in table
order.  The run is therefore NOT constrained to have produced `output_id`;
only the existence of a pointer with that name matters. -/
def trace_root (s : Store) (output_id : String) : Option ComponentRun :=
  (s.component_runs.flatMap (fun r =>
      (s.io_pointers.filter (fun p => p.name == output_id)).map (fun _ => r))).head?

/-- The python error raised when the root query returns `None` and
`_traverse` dereferences `node.dependencies` on it. -/
def attrErrorMsg : String :=
  "AttributeError: NoneType object has no attribute dependencies"

/-- `Store.trace`: run the root query; on `None` the subsequent `_traverse`
raises an AttributeError (after a side-effect-free append to the local list);
otherwise walk the dependencies starting at depth 1.  The outer `Option` is
the fuel: `none` means the walk did not finish within `fuel`. -/
def trace (s : Store) (output_id : String) (fuel : Nat) :
    Option (Except String (List (Nat × Nat))) :=
  match trace_root s output_id with
  | none => some (Except.error attrErrorMsg)
  | some root =>
      match traverseFuel (storeDeps s) fuel root.id 1 with
      | none => none
      | some node_list => some (Except.ok node_list)

/-- Modelled from the spec: `web_trace` belongs to this repository (it is
exported from `mltrace/__init__.py`) but its definition is not under src/.
Per the spec it "fails with the same not-found error as `trace` when no
producing run exists"; the nested-tree construction is not needed by any
claim and is elided, a successful call returning `()`. -/
def web_trace (s : Store) (output_id : String) : Except String Unit :=
  if s.component_runs.any (fun r => r.outputs.any (fun o => o.name == output_id)) then
    Except.ok ()
  else
    Except.error "NotFoundError"

/-- The `ORDER BY start_timestamp DESC` comparison of `get_history` (SQL sorts
NULLs aside; committed runs always carry a timestamp). -/
def runOrder (a b : ComponentRun) : Prop :=
  b.start_timestamp.getD 0 ≤ a.start_timestamp.getD 0

instance : DecidableRel runOrder := fun a b =>
  Nat.decLe (b.start_timestamp.getD 0) (a.start_timestamp.getD 0)

instance : IsTotal ComponentRun runOrder :=
  ⟨fun a b => Nat.le_total (b.start_timestamp.getD 0) (a.start_timestamp.getD 0)⟩

instance : IsTrans ComponentRun runOrder :=
  ⟨fun _ _ _ h1 h2 => Nat.le_trans h2 h1⟩

/-- `Store.get_history`: the runs of the component, ordered by start
timestamp descending, with SQL `LIMIT`.  `limit = none` models python
`limit=None`, which SQLAlchemy treats as removing the LIMIT clause. -/
def get_history (s : Store) (component_name : String) (limit : Option Nat) :
    List ComponentRun :=
  let history := (s.component_runs.filter
      (fun r => r.component_name == component_name)).insertionSort runOrder
  match limit with
  | none => history
  | some n => history.take n

/-- `Store.get_history` invoked without a `limit` argument: the python
signature is `get_history(self, component_name, limit: int = 10)`, so the
default is a LIMIT of 10, not an unlimited query. -/
def get_history_default (s : Store) (component_name : String) :
    List ComponentRun :=
  get_history s component_name (some 10)

/-- One dependency edge: `b` is listed among the dependencies of `a`. -/
def depEdge (s : Store) (a b : Nat) : Prop := b ∈ storeDeps s a

instance (s : Store) : DecidableRel (depEdge s) := fun a b =>
  List.instDecidableMemOfLawfulBEq b (storeDeps s a)

/-- A cycle is reachable from `n`: some node `c` reachable from `n` lies on a
nonempty dependency cycle. -/
def ReachesCycle (s : Store) (n : Nat) : Prop :=
  ∃ c, Relation.ReflTransGen (depEdge s) n c ∧ Relation.TransGen (depEdge s) c c

/-- The set of nodes reachable from `n` along dependency edges. -/
def reachSet (s : Store) (n : Nat) : Set Nat :=
  {x | Relation.ReflTransGen (depEdge s) n x}

/-- Name-uniqueness invariant of the claim on Tag / IOPointer identity. -/
def uniqNames (s : Store) : Prop :=
  (s.tags.map Tag.name).Nodup ∧ (s.io_pointers.map IOPointer.name).Nodup

instance (s : Store) : Decidable (uniqNames s) := by
  unfold uniqNames; infer_instance

/-- Scenario plumbing: run a commit and keep the old state on failure (the
scenario commits below all succeed; this only unwraps the `Except`). -/
def commitOr (s : Store) (cr : ComponentRun) : Store :=
  match commit_component_run s cr with
  | Except.ok sNew => sNew
  | Except.error _ => s

/-- The recency scenario of claim C1: two runs of one component produced
artifact `X` at timestamps 0 and 1 (ids 1 and 2). -/
def recencyStore : Store :=
  { Store.empty with
    io_pointers := [⟨"X", PointerTypeEnum.file⟩],
    component_runs :=
      [⟨1, "comp", some 0, some 0, [], [⟨"X", PointerTypeEnum.file⟩], []⟩,
       ⟨2, "comp", some 1, some 1, [], [⟨"X", PointerTypeEnum.file⟩], []⟩],
    next_run_id := 3 }

/-- A later, not yet committed run consuming `X`. -/
def consumerRun : ComponentRun :=
  ⟨0, "consumer", some 2, some 2, [⟨"X", PointerTypeEnum.file⟩], [], []⟩

/-- The trace scenario of claim C2 (the repo test `_set_up_computation`),
built through the store operations themselves: cr1 and cr2 both produce
`iop_1` (cr2 later), cr3 consumes `iop_1` and produces `iop_2`, `iop_3`,
cr4 consumes `iop_3` and produces `iop_4`.  The wall-clock
`set_start_timestamp` / `set_end_timestamp` entity methods (not under src/)
are modelled by an increasing logical clock. -/
def scenarioStore : Store :=
  let s := create_component Store.empty "test_component" "test_description" "shreya" []
  let (iop1, s) := get_io_pointer s "iop_1" none
  let (iop2, s) := get_io_pointer s "iop_2" none
  let (iop3, s) := get_io_pointer s "iop_3" none
  let (iop4, s) := get_io_pointer s "iop_4" none
  let cr1 := { initialize_empty_component_run "test_component" with
               start_timestamp := some 1, end_timestamp := some 1,
               outputs := [iop1] }
  let cr1 := set_dependencies_from_inputs s cr1
  let s := commitOr s cr1
  let cr2 := { initialize_empty_component_run "test_component" with
               start_timestamp := some 2, end_timestamp := some 2,
               outputs := [iop1] }
  let cr2 := set_dependencies_from_inputs s cr2
  let s := commitOr s cr2
  let cr3 := { initialize_empty_component_run "test_component" with
               start_timestamp := some 3, end_timestamp := some 3,
               inputs := [iop1], outputs := [iop2, iop3] }
  let cr3 := set_dependencies_from_inputs s cr3
  let s := commitOr s cr3
  let cr4 := { initialize_empty_component_run "test_component" with
               start_timestamp := some 4, end_timestamp := some 4,
               inputs := [iop3], outputs := [iop4] }
  let cr4 := set_dependencies_from_inputs s cr4
  commitOr s cr4

/-- The not-found scenario of claim C4: pointers `inp` and `out` exist, one
committed run consumed `inp` and produced `out`; nothing produced `inp`, and
no pointer named `nope` exists at all. -/
def notFoundStore : Store :=
  { Store.empty with
    io_pointers := [⟨"inp", PointerTypeEnum.file⟩, ⟨"out", PointerTypeEnum.file⟩],
    component_runs :=
      [⟨1, "c", some 0, some 0, [⟨"inp", PointerTypeEnum.file⟩],
        [⟨"out", PointerTypeEnum.file⟩], []⟩],
    next_run_id := 2 }

/-- The duplicate-tag scenario of claim C5: a tag named `t` already exists. -/
def dupTagStore : Store :=
  { Store.empty with tags := [⟨"t"⟩] }

/-- The history scenario of claim C9: eleven committed runs of component `c`
with distinct start timestamps. -/
def historyStore : Store :=
  { Store.empty with
    component_runs := (List.range 11).map (fun i =>
      ⟨i + 1, "c", some i, some i, [], [⟨"o", PointerTypeEnum.file⟩], []⟩),
    next_run_id := 12 }

/-- The output-id scenario of claim C6: endpoint pointers named `0`..`4`. -/
def endpointStore : Store :=
  { Store.empty with
    io_pointers := (List.range 5).map (fun i =>
      ⟨toString i, PointerTypeEnum.endpoint⟩) }

/-- A store whose single run (id 1) lists itself as a dependency — the
malformed cyclic history of claim C8. -/
def cyclicStore : Store :=
  { Store.empty with
    component_runs := [⟨1, "c", some 0, some 0, [], [], [1]⟩],
    next_run_id := 2 }

/-! ## Theorems -/

/-- C1 (code behaviour at the failing input): with two runs of component
`comp` both producing artifact `X` at timestamps 0 < 1 (ids 1 and 2), the
resolver sets a later consumer's dependencies to BOTH runs, `[1, 2]` — the
stale t1-producer included — because the window maximum is computed by the
query but discarded by `m[0]`.  The claim (and the code's own docstring)
says the t2-run only. -/
theorem recency_resolution_code_behavior :
    (set_dependencies_from_inputs recencyStore consumerRun).dependencies = [1, 2] := by
  decide

/-- C2 (code behaviour at the failing input): in the iop_4 scenario the
committed dependency table is cr3 ↦ {cr1, cr2} and cr4 ↦ {cr3} (cr1 not
excluded), and `trace("iop_4")` returns `[(1, 1)]`: the root query does not
constrain the run to a producer of iop_4 (its filter cross-joins
io_pointers), so the first run in the table (cr1, dependency-free) is the
root, recorded at depth 1, not 0.  The claim (and the repo test `testTrace`)
expects `[(0, 4), (1, 3), (2, 2)]`. -/
theorem trace_scenario_code_behavior :
    (scenarioStore.component_runs.map (fun r => (r.id, r.dependencies))) =
      [(1, []), (2, []), (3, [1, 2]), (4, [3])] ∧
    trace scenarioStore "iop_4" 100 = some (Except.ok [(1, 1)]) := by
  decide

/-- C4 (code behaviour at the failing inputs): in a store where pointer
`inp` exists but no run lists it among its outputs, `trace("inp")` returns a
normal value (a trace rooted at the first run in the table) instead of
raising; for a name with no pointer at all, `trace("nope")` raises an
AttributeError on the `None` root, not a not-found error.  Only the
spec-modelled `web_trace` raises the not-found error the claim describes. -/
theorem trace_not_found_code_behavior :
    (notFoundStore.component_runs.all
      (fun r => r.outputs.all (fun o => o.name != "inp"))) = true ∧
    trace notFoundStore "inp" 10 = some (Except.ok [(1, 1)]) ∧
    trace notFoundStore "nope" 10 = some (Except.error attrErrorMsg) ∧
    web_trace notFoundStore "inp" = Except.error "NotFoundError" := by
  decide

/-- C9 (counterexample): with eleven committed runs of component `c`,
calling `get_history` without a limit argument returns 10 entries, not all
11 — the python default is `limit = 10`, so "unset" does not mean
unlimited. -/
theorem get_history_default_counterexample :
    (get_history_default historyStore "c").length = 10 ∧
    (historyStore.component_runs.filter (fun r => r.component_name == "c")).length = 11 := by
  decide

/-- C9 (amended): `get_history` returns exactly the runs of the named
component, sorted by start timestamp descending; an explicit `limit = some n`
truncates to the first `n`; `limit = none` (python `None`) returns all of
them; an OMITTED limit defaults to 10. -/
theorem get_history_spec (s : Store) (component_name : String) (n : Nat) :
    get_history s component_name (some n) =
      (get_history s component_name none).take n ∧
    (get_history s component_name none).Perm
      (s.component_runs.filter (fun r => r.component_name == component_name)) ∧
    List.Sorted runOrder (get_history s component_name none) ∧
    get_history_default s component_name = get_history s component_name (some 10) := by
  refine ⟨rfl, ?_, ?_, rfl⟩
  · exact List.perm_insertionSort runOrder _
  · exact List.sorted_insertionSort runOrder _

/-- C10: `create_output_ids` only reads the store: the store component of
its result is the input store itself, so a second call with the same count
and no intervening writes sees the same state and returns the identical
list — no identifier is reserved. -/
theorem create_output_ids_frame (s : Store) (n : Nat) :
    (create_output_ids s n).2 = s ∧
    (create_output_ids ((create_output_ids s n).2) n).1 =
      (create_output_ids s n).1 :=
  ⟨rfl, rfl⟩

/-- C3: a run missing a start timestamp, an end timestamp or all outputs is
exactly a run with a nonempty missing-field list; committing such a run
raises the message naming each missing field and persists nothing (the
error branch carries no store); a run with all three set commits, appending
exactly that run with the next serial id. -/
theorem commit_component_run_gating (s : Store) (cr : ComponentRun) :
    ((cr.start_timestamp = none ∨ cr.end_timestamp = none ∨ cr.outputs = []) ↔
        missing_fields cr ≠ []) ∧
    (cr.start_timestamp = none → "start timestamp" ∈ missing_fields cr) ∧
    (cr.end_timestamp = none → "end timestamp" ∈ missing_fields cr) ∧
    (cr.outputs = [] → "outputs" ∈ missing_fields cr) ∧
    (missing_fields cr ≠ [] →
        commit_component_run s cr =
          Except.error (String.intercalate ", " (missing_fields cr))) ∧
    (missing_fields cr = [] →
        commit_component_run s cr = Except.ok { s with
          component_runs := s.component_runs ++ [{ cr with id := s.next_run_id }],
          next_run_id := s.next_run_id + 1 }) := by
  obtain ⟨i, cn, st, et, ins, outs, deps⟩ := cr
  cases st <;> cases et <;> cases outs <;>
    simp [missing_fields, commit_component_run, check_completeness]

/-- Witness for C3: committing a freshly initialized (fully empty) run fails
with the message naming all three missing fields. -/
theorem commit_component_run_gating_witness :
    commit_component_run Store.empty (initialize_empty_component_run "c") =
      Except.error (String.intercalate ", "
        (missing_fields (initialize_empty_component_run "c"))) ∧
    missing_fields (initialize_empty_component_run "c") ≠ [] :=
  ⟨(commit_component_run_gating Store.empty
      (initialize_empty_component_run "c")).2.2.2.2.1 (by decide), by decide⟩

/-- An empty filter result means the predicate fails everywhere. -/
theorem filter_eq_nil_false {α : Type} (p : α → Bool) (l : List α)
    (h : l.filter p = []) : ∀ a ∈ l, p a = false := by
  intro a ha
  by_contra hc
  have hmem : a ∈ l.filter p := List.mem_filter.mpr ⟨ha, by simpa using hc⟩
  simp [h] at hmem

/-- `get_tag` preserves name-uniqueness: it only inserts a tag whose name had
no occurrence. -/
theorem get_tag_uniq (s : Store) (tname : String) (hu : uniqNames s) :
    uniqNames (get_tag s tname).2 := by
  cases hf : s.tags.filter (fun t => t.name == tname) with
  | nil =>
      have hnot : tname ∉ s.tags.map Tag.name := by
        intro hmem
        rcases List.mem_map.mp hmem with ⟨t, ht, hname⟩
        have hfa := filter_eq_nil_false _ _ hf t ht
        rw [hname] at hfa
        simp at hfa
      simp only [uniqNames, get_tag, hf]
      exact ⟨by simp [List.nodup_append, hnot, hu.1], hu.2⟩
  | cons t ts =>
      simp only [get_tag, hf]
      exact hu

/-- `get_io_pointer` preserves name-uniqueness likewise. -/
theorem get_io_pointer_uniq (s : Store) (pname : String)
    (pt : Option PointerTypeEnum) (hu : uniqNames s) :
    uniqNames (get_io_pointer s pname pt).2 := by
  cases hf : s.io_pointers.filter (fun p => p.name == pname) with
  | nil =>
      have hnot : pname ∉ s.io_pointers.map IOPointer.name := by
        intro hmem
        rcases List.mem_map.mp hmem with ⟨q, hq, hname⟩
        have hfa := filter_eq_nil_false _ _ hf q hq
        rw [hname] at hfa
        simp at hfa
      simp only [uniqNames, get_io_pointer, hf]
      exact ⟨hu.1, by simp [List.nodup_append, hnot, hu.2]⟩
  | cons q qs =>
      simp only [get_io_pointer, hf]
      exact hu

/-- A successful commit touches only the run table, so it preserves Tag and
IOPointer name-uniqueness. -/
theorem commit_uniq (s : Store) (cr : ComponentRun) (s2 : Store)
    (hok : commit_component_run s cr = Except.ok s2) (hu : uniqNames s) :
    uniqNames s2 := by
  by_cases hc : (check_completeness cr).1 <;>
    simp [commit_component_run, hc] at hok
  subst hok
  exact hu

/-- C5 (counterexample): with a tag named `t` already in the store (a
name-unique state), `create_component` with tag list `["t"]` leaves the tag
table with two Tag entities named `t` — it does not reuse the existing
entity, refuting the claim as stated. -/
theorem create_component_duplicate_tag_counterexample :
    uniqNames dupTagStore ∧
    ¬ uniqNames (create_component dupTagStore "c" "d" "o" ["t"]) := by
  decide

/-- C5 (amended): the get-or-create operations `get_tag` and
`get_io_pointer` preserve the no-two-entities-share-a-name invariant, and so
do `commit_component_run` and `create_output_ids` (which never touch those
tables); but `create_component` does not resolve its tag names through
get-or-create: for a fresh component name it appends `Tag` objects built
directly from the given names to the tag table, so a tag name that already
exists in the store yields a second Tag entity with that name. -/
theorem name_uniqueness_amended (s : Store) (tname pname cname d o : String)
    (pt : Option PointerTypeEnum) (tagNames : List String) (cr : ComponentRun)
    (n : Nat) :
    (uniqNames s → uniqNames (get_tag s tname).2) ∧
    (uniqNames s → uniqNames (get_io_pointer s pname pt).2) ∧
    (∀ s2, commit_component_run s cr = Except.ok s2 → uniqNames s → uniqNames s2) ∧
    (uniqNames s → uniqNames (create_output_ids s n).2) ∧
    (_get_component s cname = none →
        (create_component s cname d o tagNames).tags =
          s.tags ++ tagNames.map Tag.mk) := by
  refine ⟨get_tag_uniq s tname, get_io_pointer_uniq s pname pt,
    fun s2 hok hu => commit_uniq s cr s2 hok hu, fun hu => hu, fun hg => ?_⟩
  simp [create_component, hg]

/-- Witness for C5 (amended): creating the tag `t` in the empty store
through get-or-create keeps names unique, and creating a fresh component
with tag list `["t"]` appends exactly the tag object `⟨"t"⟩`. -/
theorem name_uniqueness_amended_witness :
    uniqNames (get_tag Store.empty "t").2 ∧
    (create_component dupTagStore "c" "d" "o" ["t"]).tags =
      dupTagStore.tags ++ [Tag.mk "t"] :=
  ⟨(name_uniqueness_amended Store.empty "t" "p" "c" "d" "o" none []
      (initialize_empty_component_run "x") 1).1 (by decide),
   (name_uniqueness_amended dupTagStore "t" "p" "c" "d" "o" none ["t"]
      (initialize_empty_component_run "x") 1).2.2.2.2 (by decide)⟩

/-- The element python `max` picks is an element of the list. -/
theorem maxIntName_mem (p : IOPointer) (ps : List IOPointer) :
    maxIntName p ps ∈ p :: ps := by
  induction ps generalizing p with
  | nil => simp [maxIntName]
  | cons q qs ih =>
      have h := ih (if intName p < intName q then q else p)
      simp only [maxIntName, List.foldl_cons] at *
      rcases List.mem_cons.mp h with h1 | h1
      · rw [h1]
        by_cases hc : intName p < intName q <;> simp [hc]
      · simp [h1]

/-- The element python `max` picks has the maximal key. -/
theorem le_maxIntName (p : IOPointer) (ps : List IOPointer) :
    ∀ x ∈ p :: ps, intName x ≤ intName (maxIntName p ps) := by
  induction ps generalizing p with
  | nil =>
      intro x hx
      rw [List.mem_singleton.mp hx]
      simp [maxIntName]
  | cons q qs ih =>
      intro x hx
      have hstep : ∀ y ∈ (if intName p < intName q then q else p) :: qs,
          intName y ≤ intName (maxIntName (if intName p < intName q then q else p) qs) :=
        ih _
      have hbp : intName p ≤ intName (if intName p < intName q then q else p) := by
        by_cases hc : intName p < intName q <;> simp [hc]
        omega
      have hbq : intName q ≤ intName (if intName p < intName q then q else p) := by
        by_cases hc : intName p < intName q <;> simp [hc]
        omega
      have hbase : intName (if intName p < intName q then q else p) ≤
          intName (maxIntName (if intName p < intName q then q else p) qs) :=
        hstep _ (List.mem_cons_self _ _)
      have hgoal : maxIntName p (q :: qs) =
          maxIntName (if intName p < intName q then q else p) qs := by
        simp [maxIntName, List.foldl_cons]
      rw [hgoal]
      rcases List.mem_cons.mp hx with h1 | h1
      · rw [h1]; omega
      · rcases List.mem_cons.mp h1 with h2 | h2
        · rw [h2]; omega
        · exact hstep x (List.mem_cons_of_mem _ h2)

/-- `start_index` with no endpoint pointers. -/
theorem startIndex_nil (s : Store) (hE : endpointPointers s = []) :
    startIndex s = 0 := by
  unfold startIndex
  rw [hE]

/-- `start_index` with at least one endpoint pointer. -/
theorem startIndex_cons (s : Store) (q : IOPointer) (qs : List IOPointer)
    (hE : endpointPointers s = q :: qs) :
    startIndex s = intName (maxIntName q qs) + 1 := by
  unfold startIndex
  rw [hE]

/-- C6: under the precondition that every endpoint-typed pointer name is a
decimal numeral, `create_output_ids(count)` returns `count` decimal string
identifiers forming the contiguous block that starts one past the current
maximum numeric name (`0` when no endpoint pointer exists): every endpoint
pointer's value is below the start, and the start is one plus the value of
some endpoint pointer when any exists.  Concretely, with endpoint pointers
`"0"`..`"4"` and count 3 the result is `["5","6","7"]`, and on the empty
store it is `["0","1","2"]`. -/
theorem create_output_ids_spec (s : Store) (n : Nat)
    (_h : ∀ p ∈ endpointPointers s, (pyInt? p.name).isSome) :
    ((create_output_ids s n).1.length = n) ∧
    (∀ i, i < n →
        (create_output_ids s n).1[i]? = some (toString (startIndex s + i))) ∧
    (endpointPointers s = [] → startIndex s = 0) ∧
    (∀ p ∈ endpointPointers s, intName p < startIndex s) ∧
    (endpointPointers s ≠ [] →
        ∃ p ∈ endpointPointers s, startIndex s = intName p + 1) ∧
    (create_output_ids endpointStore 3).1 = ["5", "6", "7"] ∧
    (create_output_ids Store.empty 3).1 = ["0", "1", "2"] := by
  refine ⟨?_, ?_, startIndex_nil s, ?_, ?_, by decide, by decide⟩
  · simp [create_output_ids]
  · intro i hi
    simp [create_output_ids, List.getElem?_map, List.getElem?_range', hi]
  · intro p hp
    cases hE : endpointPointers s with
    | nil => rw [hE] at hp; simp at hp
    | cons q qs =>
        rw [hE] at hp
        have hle := le_maxIntName q qs p hp
        rw [startIndex_cons s q qs hE]
        omega
  · intro hne
    cases hE : endpointPointers s with
    | nil => exact absurd hE hne
    | cons q qs =>
        refine ⟨maxIntName q qs, ?_, ?_⟩
        · exact maxIntName_mem q qs
        · exact startIndex_cons s q qs hE

/-- Witness for C6: the precondition holds for the `"0"`..`"4"` endpoint
store, and there the returned block has length 3. -/
theorem create_output_ids_spec_witness :
    (endpointPointers endpointStore).all (fun p => (pyInt? p.name).isSome) = true ∧
    (create_output_ids endpointStore 3).1.length = 3 :=
  ⟨by decide,
   (create_output_ids_spec endpointStore 3 (List.all_eq_true.mp (by decide))).1⟩

/-- A component query returning nothing means no component passes the name
filter. -/
theorem _get_component_none_filter (s : Store) (name : String)
    (h : _get_component s name = none) :
    s.components.filter (fun c => c.name == name) = [] := by
  unfold _get_component at h
  exact List.head?_eq_none_iff.mp h

/-- `create_component` on an existing name returns the store unchanged. -/
theorem create_component_exists (s : Store) (name d o : String)
    (ts : List String) (c : Component) (h : _get_component s name = some c) :
    create_component s name d o ts = s := by
  simp [create_component, h]

/-- C7: `create_component` is idempotent — repeating a creation with the
same name is the identity on the resulting store (so description, owner and
tag set are untouched by the second call), and after the first creation
exactly one Component record with that name exists (given the store held at
most one beforehand). -/
theorem create_component_idempotent (s : Store) (name d o d2 o2 : String)
    (ts ts2 : List String)
    (h : s.components.countP (fun c => c.name == name) ≤ 1) :
    create_component (create_component s name d o ts) name d2 o2 ts2 =
      create_component s name d o ts ∧
    (create_component s name d o ts).components.countP
      (fun c => c.name == name) = 1 := by
  have hcount : ∀ l : List Component,
      l.countP (fun c => c.name == name) =
        (l.filter (fun c => c.name == name)).length :=
    fun l => List.countP_eq_length_filter _ _
  cases hg : _get_component s name with
  | some c =>
      have h1 : create_component s name d o ts = s :=
        create_component_exists s name d o ts c hg
      have hne : s.components.filter (fun c => c.name == name) ≠ [] := by
        intro hnil
        unfold _get_component at hg
        rw [hnil] at hg
        simp at hg
      have hpos : 1 ≤ s.components.countP (fun c => c.name == name) := by
        rw [hcount]
        exact List.length_pos.mpr hne
      refine ⟨?_, ?_⟩
      · rw [h1]
        exact create_component_exists s name d2 o2 ts2 c hg
      · rw [h1]
        omega
  | none =>
      have hnil : s.components.filter (fun c => c.name == name) = [] :=
        _get_component_none_filter s name hg
      have h1 : create_component s name d o ts =
          { s with
            components := s.components ++ [⟨name, d, o, ts.map Tag.mk⟩],
            tags := s.tags ++ ts.map Tag.mk } := by
        simp [create_component, hg]
      have hg2 : _get_component (create_component s name d o ts) name =
          some ⟨name, d, o, ts.map Tag.mk⟩ := by
        rw [h1]
        unfold _get_component
        simp [List.filter_append, hnil]
      refine ⟨create_component_exists _ name d2 o2 ts2 _ hg2, ?_⟩
      rw [h1, hcount]
      simp [List.filter_append, hnil]

/-- Witness for C7: creating `c` twice in the empty store equals creating it
once, which leaves exactly one record named `c`. -/
theorem create_component_idempotent_witness :
    Store.empty.components.countP (fun c => c.name == "c") ≤ 1 ∧
    create_component (create_component Store.empty "c" "d" "o" []) "c" "x" "y" [] =
      create_component Store.empty "c" "d" "o" [] ∧
    (create_component Store.empty "c" "d" "o" []).components.countP
      (fun c => c.name == "c") = 1 :=
  ⟨by decide,
   (create_component_idempotent Store.empty "c" "d" "o" "x" "y" [] [] (by decide)).1,
   (create_component_idempotent Store.empty "c" "d" "o" "x" "y" [] [] (by decide)).2⟩

/-- Folding the traversal step from a dead (`none`) accumulator stays dead. -/
theorem traverse_foldl_none (deps : Nat → List Nat) (fuel depth : Nat)
    (l : List Nat) :
    l.foldl (fun acc x => acc.bind (fun l1 =>
      (traverseFuel deps fuel x (depth + 1)).map (fun l2 => l1 ++ l2))) none = none := by
  induction l with
  | nil => rfl
  | cons a l ih => simpa using ih

/-- If any neighbour's recursive walk runs out of fuel, the whole fold does. -/
theorem traverse_foldl_mem_none (deps : Nat → List Nat) (fuel depth : Nat)
    (m : Nat) (hnone : traverseFuel deps fuel m (depth + 1) = none) :
    ∀ (l : List Nat), m ∈ l →
      ∀ acc, l.foldl (fun acc x => acc.bind (fun l1 =>
        (traverseFuel deps fuel x (depth + 1)).map (fun l2 => l1 ++ l2))) acc = none := by
  intro l
  induction l with
  | nil => intro hm; cases hm
  | cons a l ih =>
      intro hm acc
      rcases List.mem_cons.mp hm with rfl | hm2
      · simp only [List.foldl_cons, hnone, Option.map_none']
        have hstep : acc.bind (fun _ : List (Nat × Nat) =>
            (none : Option (List (Nat × Nat)))) = none := by
          cases acc <;> rfl
        rw [hstep]
        exact traverse_foldl_none deps fuel depth l
      · exact ih hm2 _

/-- A walk that finishes within some fuel finishes, with the same node list,
within any larger fuel. -/
theorem traverseFuel_mono (deps : Nat → List Nat) :
    ∀ fuel fuel2, fuel ≤ fuel2 → ∀ node depth r,
      traverseFuel deps fuel node depth = some r →
      traverseFuel deps fuel2 node depth = some r := by
  intro fuel
  induction fuel with
  | zero =>
      intro fuel2 _ node depth r h
      simp [traverseFuel] at h
  | succ f ih =>
      intro fuel2 hle node depth r h
      obtain ⟨f2, rfl⟩ : ∃ f2, fuel2 = f2 + 1 := ⟨fuel2 - 1, by omega⟩
      have hle2 : f ≤ f2 := by omega
      simp only [traverseFuel] at h ⊢
      revert h
      generalize (some [(depth, node)] : Option (List (Nat × Nat))) = acc
      revert acc
      induction (deps node) with
      | nil => exact fun acc h => h
      | cons a l ihl =>
          intro acc h
          simp only [List.foldl_cons] at h ⊢
          cases hacc : acc with
          | none =>
              rw [hacc] at h
              simp only [Option.none_bind] at h ⊢
              exact ihl none h
          | some l1 =>
              rw [hacc] at h
              simp only [Option.some_bind] at h ⊢
              cases htv : traverseFuel deps f a (depth + 1) with
              | none =>
                  rw [htv] at h
                  simp only [Option.map_none'] at h
                  rw [traverse_foldl_none deps f depth l] at h
                  cases h
              | some l2 =>
                  rw [htv] at h
                  rw [ih f2 hle2 a (depth + 1) l2 htv]
                  simpa using ihl _ h

/-- When every neighbour's walk finishes within the fuel, the fold finishes. -/
theorem traverse_foldl_isSome (deps : Nat → List Nat) (fuel depth : Nat) :
    ∀ (l : List Nat),
      (∀ m ∈ l, (traverseFuel deps fuel m (depth + 1)).isSome) →
      ∀ acc : List (Nat × Nat),
        (l.foldl (fun acc x => acc.bind (fun l1 =>
          (traverseFuel deps fuel x (depth + 1)).map (fun l2 => l1 ++ l2)))
          (some acc)).isSome := by
  intro l
  induction l with
  | nil => intro _ acc; rfl
  | cons a l ih =>
      intro hall acc
      have ha := hall a (List.mem_cons_self _ _)
      obtain ⟨l2, hl2⟩ := Option.isSome_iff_exists.mp ha
      simp only [List.foldl_cons, hl2, Option.some_bind, Option.map_some']
      exact ih (fun m hm => hall m (List.mem_cons_of_mem _ hm)) _

/-- A finite family of terminating walks admits one common sufficient fuel. -/
theorem common_fuel (deps : Nat → List Nat) (depth : Nat) :
    ∀ l : List Nat,
      (∀ m ∈ l, ∃ f, (traverseFuel deps f m depth).isSome) →
      ∃ F, ∀ m ∈ l, (traverseFuel deps F m depth).isSome := by
  intro l
  induction l with
  | nil => exact fun _ => ⟨0, by simp⟩
  | cons a l ih =>
      intro h
      obtain ⟨fa, ha⟩ := h a (List.mem_cons_self _ _)
      obtain ⟨F, hF⟩ := ih (fun m hm => h m (List.mem_cons_of_mem _ hm))
      refine ⟨max fa F, ?_⟩
      intro m hm
      rcases List.mem_cons.mp hm with rfl | hm2
      · obtain ⟨r, hr⟩ := Option.isSome_iff_exists.mp ha
        rw [traverseFuel_mono deps fa (max fa F) (Nat.le_max_left _ _) _ _ _ hr]
        rfl
      · obtain ⟨r, hr⟩ := Option.isSome_iff_exists.mp (hF m hm2)
        rw [traverseFuel_mono deps F (max fa F) (Nat.le_max_right _ _) _ _ _ hr]
        rfl

/-- Accessibility of the start node under the dependency relation gives a
sufficient fuel for the walk. -/
theorem traverseFuel_terminates_of_acc (s : Store) (node : Nat)
    (h : Acc (fun m n => depEdge s n m) node) :
    ∀ depth, ∃ fuel, (traverseFuel (storeDeps s) fuel node depth).isSome := by
  induction h with
  | intro n hn ih =>
      intro depth
      have hex : ∀ m ∈ storeDeps s n,
          ∃ f, (traverseFuel (storeDeps s) f m (depth + 1)).isSome :=
        fun m hm => ih m hm (depth + 1)
      obtain ⟨F, hF⟩ := common_fuel (storeDeps s) (depth + 1) (storeDeps s n) hex
      refine ⟨F + 1, ?_⟩
      simp only [traverseFuel]
      exact traverse_foldl_isSome (storeDeps s) F depth (storeDeps s n) hF _

/-- A node from which a cycle is reachable exhausts every fuel: the walk
never finishes. -/
theorem traverseFuel_none_of_cycle (s : Store) :
    ∀ fuel node depth, ReachesCycle s node →
      traverseFuel (storeDeps s) fuel node depth = none := by
  intro fuel
  induction fuel with
  | zero => intro node depth _; rfl
  | succ f ih =>
      intro node depth hrc
      obtain ⟨m, hm, hrc2⟩ : ∃ m, m ∈ storeDeps s node ∧ ReachesCycle s m := by
        obtain ⟨c, hreach, hcyc⟩ := hrc
        rcases Relation.ReflTransGen.cases_head hreach with heq | ⟨b, hb, hbc⟩
        · subst heq
          obtain ⟨b, hb, hbc⟩ := Relation.TransGen.head'_iff.mp hcyc
          exact ⟨b, hb, ⟨node, hbc, hcyc⟩⟩
        · exact ⟨b, hb, ⟨c, hbc, hcyc⟩⟩
      simp only [traverseFuel]
      exact traverse_foldl_mem_none (storeDeps s) f depth m
        (ih m (depth + 1) hrc2) (storeDeps s node) hm _

/-- Only finitely many nodes are reachable from any start: the start itself
plus targets of dependency edges recorded in the finite run table. -/
theorem reachSet_finite (s : Store) (n : Nat) : (reachSet s n).Finite := by
  apply Set.Finite.subset
    (List.finite_toSet (n :: s.component_runs.flatMap (fun r => r.dependencies)))
  intro x hx
  rcases Relation.ReflTransGen.cases_tail hx with heq | ⟨c, _, hcx⟩
  · subst heq
    exact List.mem_cons_self _ _
  · have hx2 : x ∈ storeDeps s c := hcx
    unfold storeDeps at hx2
    cases hfind : s.component_runs.find? (fun r => r.id == c) with
    | none => rw [hfind] at hx2; cases hx2
    | some run =>
        rw [hfind] at hx2
        have hrun : run ∈ s.component_runs := List.mem_of_find?_eq_some hfind
        exact List.mem_cons_of_mem _
          (List.mem_flatMap.mpr ⟨run, hrun, hx2⟩)

/-- On the finite dependency graph, "no cycle reachable from `n`" gives
accessibility of `n`: each edge strictly shrinks the reachable set. -/
theorem acc_of_not_reachesCycle (s : Store) :
    ∀ k n, (reachSet s n).ncard ≤ k → ¬ ReachesCycle s n →
      Acc (fun m n => depEdge s n m) n := by
  intro k
  induction k with
  | zero =>
      intro n hcard _
      exfalso
      have hmem : n ∈ reachSet s n := Relation.ReflTransGen.refl
      have hpos : 0 < (reachSet s n).ncard :=
        (Set.ncard_pos (reachSet_finite s n)).mpr ⟨n, hmem⟩
      omega
  | succ k ih =>
      intro n hcard hnc
      constructor
      intro m hm
      have hnc2 : ¬ ReachesCycle s m := by
        rintro ⟨c, hreach, hcyc⟩
        exact hnc ⟨c, Relation.ReflTransGen.head hm hreach, hcyc⟩
      have hsub : reachSet s m ⊆ reachSet s n :=
        fun x hx => Relation.ReflTransGen.head hm hx
      have hnotm : n ∉ reachSet s m := by
        intro hx
        exact hnc ⟨n, Relation.ReflTransGen.refl, Relation.TransGen.head' hm hx⟩
      have hssub : reachSet s m ⊂ reachSet s n :=
        ⟨hsub, fun hba => hnotm (hba Relation.ReflTransGen.refl)⟩
      have hlt : (reachSet s m).ncard < (reachSet s n).ncard :=
        Set.ncard_lt_ncard hssub (reachSet_finite s n)
      exact ih m (by omega) hnc2

/-- C8: the recursive walk of `_traverse` terminates (some fuel suffices)
from every start node with no reachable cycle — in particular on every
acyclic dependency graph — and when a cycle is reachable from the start the
walk exhausts every fuel: with no visited-set guard the revisit recurses
unboundedly, so it does not terminate. -/
theorem traverse_termination (s : Store) (start depth : Nat) :
    (¬ ReachesCycle s start →
        ∃ fuel, (traverseFuel (storeDeps s) fuel start depth).isSome) ∧
    (ReachesCycle s start →
        ∀ fuel, traverseFuel (storeDeps s) fuel start depth = none) :=
  ⟨fun hnc => traverseFuel_terminates_of_acc s start
      (acc_of_not_reachesCycle s (reachSet s start).ncard start le_rfl hnc) depth,
   fun hrc fuel => traverseFuel_none_of_cycle s fuel start depth hrc⟩

/-- Witness for C8: in the store whose run 1 depends on itself, the walk
from run 1 exhausts a concrete fuel of 5. -/
theorem traverse_termination_witness :
    traverseFuel (storeDeps cyclicStore) 5 1 1 = none :=
  (traverse_termination cyclicStore 1 1).2
    ⟨1, Relation.ReflTransGen.refl, Relation.TransGen.single (by decide)⟩ 5
